import Mathlib

/-!
Verification of the Alchemy dynamic operation/query engine
(`src/engine/src/api/schema/operations.rs`) against its specification.

The Rust code is shallowly embedded: machine integers become `Int`/`Nat`
with explicit clamping and wrapping where the Rust casts do so, fallible
operations (the Rust `unwrap` calls) return `Option`, and the asynchronous
store round-trip is modelled by passing the response of the store as an
explicit oracle argument. Types that live in modules of the repository
that are not part of the provided sources (the AQL query builder types,
the database entity descriptors and the NotFound error) are modelled from
the specification; each such definition says so in its doc comment.
-/

/-! ## Model of IEEE 754 double payloads

The engine never performs any floating-point arithmetic: an `f64` held by
a JSON number is only carried through unchanged into the output scalar.
We therefore model an `f64` payload as an opaque wrapper around a rational
value; only identity of payloads matters for any claim. -/

/-- Opaque surrogate for an IEEE 754 double payload. The code under
verification only moves such values around, so the carrier type is
irrelevant; a rational gives decidable equality. -/
structure F64 where
  val : Rat
deriving DecidableEq, Repr

/-! ## serde_json numbers

`serde_json::Number` (without the arbitrary-precision feature) stores a
number as one of three variants: a non-negative integer as `u64`, a
negative integer as `i64`, or a double. `is_i64`, `is_u64`, `as_i64`,
`as_u64`, `as_f64` below follow the documented behaviour of that crate. -/

/-- Model of `serde_json::Number`: `posInt` is the `u64` variant (used for
all non-negative integers), `negInt` the `i64` variant (used only for
negative integers), `float` the `f64` variant. -/
inductive JsonNumber where
  | posInt (v : Nat)
  | negInt (v : Int)
  | float (f : F64)
deriving DecidableEq, Repr

def I64_MAX : Int := 9223372036854775807

def I32_MAX : Int := 2147483647

def I32_MIN : Int := -2147483648

/-- The Rust expression `i32::MAX as u64` (value-preserving cast). -/
def U64_OF_I32_MAX : Nat := 2147483647

/-- The Rust expression `i32::MIN as u64`: the cast sign-extends, giving
2^64 - 2^31. -/
def U64_OF_I32_MIN : Nat := 18446744071562067968

/-- The Rust cast `v as i32` applied to a `u64` or `i64` value: truncate
to 32 bits, two's complement. -/
def as_i32_cast (v : Int) : Int :=
  if v % 4294967296 < 2147483648 then v % 4294967296
  else v % 4294967296 - 4294967296

def JsonNumber.is_i64 : JsonNumber → Bool
  | .posInt v => decide ((v : Int) ≤ I64_MAX)
  | .negInt _ => true
  | .float _ => false

def JsonNumber.is_u64 : JsonNumber → Bool
  | .posInt _ => true
  | .negInt _ => false
  | .float _ => false

def JsonNumber.as_i64 : JsonNumber → Option Int
  | .posInt v => if (v : Int) ≤ I64_MAX then some (v : Int) else none
  | .negInt v => some v
  | .float _ => none

def JsonNumber.as_u64 : JsonNumber → Option Nat
  | .posInt v => some v
  | .negInt _ => none
  | .float _ => none

def JsonNumber.as_f64 : JsonNumber → Option F64
  | .posInt v => some ⟨(v : Rat)⟩
  | .negInt v => some ⟨(v : Rat)⟩
  | .float f => some f

/-! ## GraphQL output values

Model of `juniper::Value` restricted to the scalar kinds the engine
produces: `Value::scalar` on `i32`, `f64`, `bool`, `String`, plus null,
lists and objects. -/

inductive GqlValue where
  | null
  | int (i : Int)
  | float (f : F64)
  | bool (b : Bool)
  | str (s : String)
  | list (items : List GqlValue)
  | obj (fields : List (String × GqlValue))

/-- Embedding of `convert_number` (operations.rs lines 162-195). The
`unwrap` calls of the source become `Option.map`: a `none` result models a
panic. The branch structure, the comparison constants (including the
sign-extended `i32::MIN as u64`) and the final `as i32` casts follow the
source exactly. -/
def convert_number (n : JsonNumber) : Option GqlValue :=
  if n.is_i64 then
    n.as_i64.map fun v =>
      let res : Int :=
        if v > I32_MAX then I32_MAX
        else if v < I32_MIN then I32_MIN
        else as_i32_cast v
      GqlValue.int res
  else if n.is_u64 then
    n.as_u64.map fun v =>
      let res : Int :=
        if v > U64_OF_I32_MAX then I32_MAX
        else if v < U64_OF_I32_MIN then I32_MIN
        else as_i32_cast (v : Int)
      GqlValue.int res
  else
    n.as_f64.map fun v => GqlValue.float v

/-- The clamping function the specification describes: narrow an integer
to the 32-bit signed range by saturation. -/
def clampI32 (v : Int) : Int :=
  if v > I32_MAX then I32_MAX else if v < I32_MIN then I32_MIN else v

/-- The mathematical integer carried by an integral JSON number. -/
def JsonNumber.intValue : JsonNumber → Option Int
  | .posInt v => some (v : Int)
  | .negInt v => some v
  | .float _ => none

/-! ## JSON documents and the Value Converter -/

/-- Model of `serde_json::Value`. Objects are association lists in
document order (`serde_json::Map` preserves an iteration order; only the
per-key values matter here). -/
inductive Json where
  | null
  | bool (b : Bool)
  | num (n : JsonNumber)
  | str (s : String)
  | arr (items : List Json)
  | obj (fields : List (String × Json))

/-- Model of `serde_json::Value::as_object`: `some` exactly on objects. -/
def Json.as_object : Json → Option (List (String × Json))
  | .obj fields => some fields
  | _ => none

mutual

/-- Embedding of the inner `convert` closure of
`convert_json_to_juniper_value` (operations.rs lines 203-215). A `none`
result models a panic inside `convert_number`. -/
def convert : Json → Option GqlValue
  | .null => some .null
  | .bool v => some (.bool v)
  | .num n => convert_number n
  | .str s => some (.str s)
  | .arr a => (convertList a).map GqlValue.list
  | .obj o => convert_json_to_juniper_value o

/-- Iteration of `convert` over the elements of a JSON array
(the `a.iter().map(...).collect()` of the source). -/
def convertList : List Json → Option (List GqlValue)
  | [] => some []
  | x :: xs => do
    let v ← convert x
    let vs ← convertList xs
    pure (v :: vs)

/-- Embedding of `convert_json_to_juniper_value` (operations.rs lines
197-222): convert every field of the map and assemble the output object. -/
def convert_json_to_juniper_value (data : List (String × Json)) : Option GqlValue :=
  (convertFields data).map GqlValue.obj

/-- Iteration of `convert` over the fields of a JSON object (the
`for (key, val) in data` loop of the source). -/
def convertFields : List (String × Json) → Option (List (String × GqlValue))
  | [] => some []
  | (k, v) :: rest => do
    let w ← convert v
    let ws ← convertFields rest
    pure ((k, w) :: ws)

end

/-! ## String casing and pluralization

Models of the two external crates the engine calls for name derivation:
`convert_case` (snake and Pascal casing) and `pluralizer` (a port of the
pluralize npm package, whose `pluralize(word, count, include_count)`
returns the singular form of `word` when `count == 1` and the plural form
otherwise). The models cover regular alphabetic identifiers, which is the
domain the engine feeds them. -/

/-- Snake-casing of a character list; the boolean tracks whether the
previous character was lowercase (a lower-to-upper boundary inserts an
underscore). -/
def snakeChars : List Char → Bool → List Char
  | [], _ => []
  | c :: rest, prevLower =>
    if c.isUpper then
      if prevLower then '_' :: c.toLower :: snakeChars rest false
      else c.toLower :: snakeChars rest false
    else c :: snakeChars rest c.isLower

/-- Model of `convert_case` conversion `to_case(Case::Snake)`. -/
def toSnake (s : String) : String := ⟨snakeChars s.data false⟩

/-- Pascal-casing of a character list; the boolean tracks whether the next
character starts a word (word separators are underscores and spaces). -/
def pascalChars : List Char → Bool → List Char
  | [], _ => []
  | c :: rest, atStart =>
    if c = '_' ∨ c = ' ' then pascalChars rest true
    else if atStart then c.toUpper :: pascalChars rest false
    else c :: pascalChars rest false

/-- Model of `convert_case` conversion `to_case(Case::Pascal)`. -/
def toPascal (s : String) : String := ⟨pascalChars s.data true⟩

def isVowel (c : Char) : Bool :=
  (c == 'a') || (c == 'e') || (c == 'i') || (c == 'o') || (c == 'u') ||
  (c == 'A') || (c == 'E') || (c == 'I') || (c == 'O') || (c == 'U')

/-- Regular English plural, computed on the reversed character list:
sibilant endings take "es", a consonant followed by "y" becomes "ies",
everything else takes "s". -/
def pluralWord (w : String) : String :=
  match w.data.reverse with
  | 's' :: _ => w ++ "es"
  | 'x' :: _ => w ++ "es"
  | 'z' :: _ => w ++ "es"
  | 'h' :: 'c' :: _ => w ++ "es"
  | 'h' :: 's' :: _ => w ++ "es"
  | 'y' :: p :: rest =>
    if isVowel p then w ++ "s" else ⟨(p :: rest).reverse ++ ['i', 'e', 's']⟩
  | _ => w ++ "s"

/-- Regular English singular, inverse of `pluralWord` on regular nouns:
a final "ies" becomes "y", a final "ss" stays, any other final "s" is
dropped. -/
def singularWord (w : String) : String :=
  match w.data.reverse with
  | 's' :: 'e' :: 'i' :: rest => ⟨rest.reverse ++ ['y']⟩
  | 's' :: 's' :: _ => w
  | 's' :: rest => ⟨rest.reverse⟩
  | _ => w

/-- Model of `pluralizer::pluralize(word, count, include_count)`: `count
== 1` singularizes, any other count pluralizes; `include_count` prefixes
the count. -/
def pluralize (word : String) (count : Int) (include_count : Bool) : String :=
  let base := if count = 1 then singularWord word else pluralWord word
  if include_count then toString count ++ " " ++ base else base

example : pluralize (toPascal "pandey") 1 false = "Pandey" := by decide
example : pluralize (toPascal "pandey") 2 false = "Pandeys" := by decide
example : pluralize (toSnake "User") 1 false = "user" := by decide
example : pluralize (toSnake "User") 2 false = "users" := by decide

/-! ## Entity and relationship descriptors

The types `DbEntity` and `DbRelationship` come from
`crate::lib::database::api`, which is not among the provided sources. -/

/-- Modelled from the spec: `EntityDescriptor` is
`{ name: string, collectionName: string }` (spec section 3); the source
calls the fields `name` and `collection_name`. -/
structure DbEntity where
  name : String
  collection_name : String
deriving DecidableEq, Repr

/-- Modelled from the spec: `RelationshipDescriptor` is
`{ name: string, from: EntityDescriptor, ... }` (spec section 3); only the
`name` and `from` fields are read by the operations code. -/
structure DbRelationship where
  name : String
  «from» : DbEntity
deriving DecidableEq, Repr

/-- Embedding of `OperationData` (operations.rs lines 114-122); the
phantom scalar-type parameter is dropped. -/
structure OperationData where
  entity : DbEntity
  relationships : List DbRelationship
deriving DecidableEq, Repr

/-- Embedding of the default trait method
`Operation::get_relationship_edge_name` (operations.rs lines 145-159):
`format!` of the pluralizer applied with count 1 to the snake-cased name
of the source entity, an underscore, and the relationship name. -/
def get_relationship_edge_name (relationship : DbRelationship) : String :=
  pluralize (toSnake relationship.«from».name) 1 false ++ "_" ++ relationship.name

/-- Embedding of `Get::get_operation_name` (operations.rs lines 294-306). -/
def Get.get_operation_name (data : OperationData) : String :=
  "get" ++ pluralize (toPascal data.entity.name) 1 false

/-- Embedding of `GetAll::get_operation_name` (operations.rs lines
382-394). -/
def GetAll.get_operation_name (data : OperationData) : String :=
  "getAll" ++ pluralize (toPascal data.entity.name) 2 false

example : get_relationship_edge_name ⟨"likes", ⟨"User", "users"⟩⟩ = "user_likes" := by decide
example : Get.get_operation_name ⟨⟨"pandey", "pandeys"⟩, []⟩ = "getPandey" := by decide
example : GetAll.get_operation_name ⟨⟨"pandey", "pandeys"⟩, []⟩ = "getAllPandeys" := by decide

/-! ## Query model and operation execution

The AQL builder types come from `crate::lib::database::aql`, which is not
among the provided sources; they are modelled from the spec (section 3,
"Query" and "FilterNode", and section 4.3). The execution logic of
`Get::call` and `GetAll::call` is embedded from the source, with the
asynchronous store round-trip replaced by an explicit oracle argument
giving the response of the store to the built request. -/

/-- Modelled from the spec: a filter operand is a field reference or a
bind reference (spec section 3, FilterNode); the source constructs
`AQLQueryParameter` and `AQLQueryBind` nodes. -/
inductive AQLQueryNode where
  | AQLQueryParameter (field : String)
  | AQLQueryBind (argument : String)
deriving DecidableEq, Repr

/-- Modelled from the spec: only equality is implemented (spec section 3). -/
inductive AQLOperation where
  | EQUAL
deriving DecidableEq, Repr

/-- Modelled from the spec: a binary filter node with left operand,
operator and right operand (spec section 3, FilterNode). -/
structure AQLFilter where
  left_node : AQLQueryNode
  operation : AQLOperation
  right_node : AQLQueryNode
deriving DecidableEq, Repr

/-- Modelled from the spec: a query holds an optional filter and an
optional limit; this is the part of the builder state the operations
code mutates (spec section 3, Query). -/
structure AQLQuery where
  filter : Option AQLFilter
  limit : Option Int
deriving DecidableEq, Repr

/-- Modelled from the spec: `get_argument_key` assigns a deterministic
bind-variable key to a logical argument name (spec section 4.3). -/
def AQLQuery.get_argument_key (_ : AQLQuery) (name : String) : String :=
  name

/-- Modelled from the spec: the single error kind surfaced by the core is
NotFound carrying the entity name (spec section 7); the source constructs
it as `NotFoundError::new(entity.name).into_field_error()`. -/
inductive FieldError where
  | notFound (entityName : String)
deriving DecidableEq, Repr

/-- Opaque model of `rust_arango::ClientError`, the execution failure of
the store client. -/
structure ClientError where
  message : String
deriving DecidableEq, Repr

/-- The request handed to the store client: the prepared query (kept
structurally, since serialization lives outside the provided sources)
together with the bind variables attached by the `AqlQuery` builder. -/
structure AqlRequest where
  query : AQLQuery
  bind_vars : List (String × String)
deriving DecidableEq, Repr

/-- The arguments of a Get call: the required identifier `id`
(`registry.arg::<ID>("id")`, operations.rs line 309). -/
structure GetArguments where
  id : String
deriving DecidableEq, Repr

/-- The arguments of a GetAll call: the optional integer `limit`
(`registry.arg::<Option<i32>>("limit")`, operations.rs line 398). -/
structure GetAllArguments where
  limit : Option Int
deriving DecidableEq, Repr

/-- The filter and limit mutation of `Get::call` performed before the
async block (operations.rs lines 240-245): filter becomes the equality of
the `_key` field with the bind reference for `id`, limit becomes 1. -/
def Get.prepare (query : AQLQuery) : AQLQuery :=
  { query with
    filter := some
      { left_node := .AQLQueryParameter "_key"
        operation := .EQUAL
        right_node := .AQLQueryBind "id" }
    limit := some 1 }

/-- The request built by `Get::call` (operations.rs lines 252-258): the
serialized query with the collection name and the `id` argument bound. -/
def Get.buildRequest (data : OperationData) (arguments : GetArguments)
    (query : AQLQuery) : AqlRequest :=
  { query := query
    bind_vars :=
      [("@collection", data.entity.collection_name),
       (query.get_argument_key "id", arguments.id)] }

/-- The response handling of `Get::call` (operations.rs lines 271-290):
a non-empty result converts the first document (`as_object().unwrap()`
modelled by `Option.bind`, where `none` is a panic); an empty result or an
execution failure folds into the NotFound error. -/
def Get.handleEntries (data : OperationData)
    (entries : Except ClientError (List Json)) :
    Option (Except FieldError GqlValue) :=
  let not_found_error := FieldError.notFound data.entity.name
  match entries with
  | .ok docs =>
    match docs.head? with
    | some first =>
      (first.as_object.bind convert_json_to_juniper_value).map Except.ok
    | none => some (.error not_found_error)
  | .error _ => some (.error not_found_error)

/-- Embedding of `Get::call` (operations.rs lines 230-292). The `store`
oracle stands for the database: it maps the built request to the result
of `aql_query`. A `none` result models a panic. -/
def Get.call (data : OperationData) (arguments : GetArguments)
    (query : AQLQuery)
    (store : AqlRequest → Except ClientError (List Json)) :
    Option (Except FieldError GqlValue) :=
  let query := Get.prepare query
  let entries_query := Get.buildRequest data arguments query
  Get.handleEntries data (store entries_query)

/-- The limit mutation of `GetAll::call` performed before the async block
(operations.rs line 337): the limit becomes the optional `limit`
argument. -/
def GetAll.prepare (query : AQLQuery) (arguments : GetAllArguments) : AQLQuery :=
  { query with limit := arguments.limit }

/-- The request built by `GetAll::call` (operations.rs lines 344-346):
the serialized query with only the collection name bound. -/
def GetAll.buildRequest (data : OperationData) (query : AQLQuery) : AqlRequest :=
  { query := query
    bind_vars := [("@collection", data.entity.collection_name)] }

/-- The conversion loop of `GetAll::call` (operations.rs lines 365-367):
convert each returned document in order, the `as_object().unwrap()` and
the panics inside `convert_number` modelled by `Option`. -/
def convertDocs : List Json → Option (List GqlValue)
  | [] => some []
  | datum :: rest => do
    let v ← (Json.as_object datum).bind convert_json_to_juniper_value
    let vs ← convertDocs rest
    pure (v :: vs)

/-- The response handling of `GetAll::call` (operations.rs lines
359-378): every returned document is converted (`as_object().unwrap()`
modelled by `Option.bind`) and the list returned; an execution failure
folds into the NotFound error. -/
def GetAll.handleEntries (data : OperationData)
    (entries : Except ClientError (List Json)) :
    Option (Except FieldError GqlValue) :=
  let not_found_error := FieldError.notFound data.entity.name
  match entries with
  | .ok docs => (convertDocs docs).map fun output => .ok (.list output)
  | .error _ => some (.error not_found_error)

/-- Embedding of `GetAll::call` (operations.rs lines 327-380), with the
store round-trip as an oracle argument as in `Get.call`. -/
def GetAll.call (data : OperationData) (arguments : GetAllArguments)
    (query : AQLQuery)
    (store : AqlRequest → Except ClientError (List Json)) :
    Option (Except FieldError GqlValue) :=
  let query := GetAll.prepare query arguments
  let entries_query := GetAll.buildRequest data query
  GetAll.handleEntries data (store entries_query)

/-! ## Operation registry

Embedding of `OperationRegistry` (operations.rs lines 22-112). The
`HashMap<String, OperationEntry>` is modelled as an association list with
the replace-or-append insertion semantics of `HashMap::insert`; the three
function-pointer fields of `OperationEntry` are determined by the variant
they were taken from, so the entry stores the variant tag and the shared
data. -/

/-- The two operation variants registered per entity. -/
inductive OpVariant where
  | get
  | getAll
deriving DecidableEq, Repr

/-- Embedding of `OperationEntry` (operations.rs lines 29-43): the
closure fields `closure`, `arguments_closure` and `field_closure` are the
trait methods of the variant, so the tag determines them. -/
structure OperationEntry where
  variant : OpVariant
  data : OperationData
deriving DecidableEq, Repr

/-- Key dispatch of a variant tag to its name derivation
(`T::get_operation_name`). -/
def OpVariant.operationName : OpVariant → OperationData → String
  | .get => Get.get_operation_name
  | .getAll => GetAll.get_operation_name

/-- Embedding of `OperationRegistry` (operations.rs lines 22-27). -/
structure OperationRegistry where
  operations : List (String × OperationEntry)
deriving DecidableEq, Repr

/-- Embedding of `OperationRegistry::new` (operations.rs lines 49-53). -/
def OperationRegistry.new : OperationRegistry :=
  { operations := [] }

/-- The `HashMap::insert` semantics on the association-list model:
replace the entry of an existing key in place, otherwise append. -/
def hmInsert (m : List (String × OperationEntry)) (k : String)
    (v : OperationEntry) : List (String × OperationEntry) :=
  match m with
  | [] => [(k, v)]
  | (k0, v0) :: rest =>
    if k0 = k then (k, v) :: rest else (k0, v0) :: hmInsert rest k v

/-- The `HashMap::get` semantics on the association-list model. -/
def hmGet (m : List (String × OperationEntry)) (k : String) :
    Option OperationEntry :=
  match m with
  | [] => none
  | (k0, v0) :: rest => if k0 = k then some v0 else hmGet rest k

/-- Embedding of `OperationRegistry::register` (operations.rs lines
94-111): derive the key from the variant and insert the entry. -/
def OperationRegistry.register (r : OperationRegistry) (variant : OpVariant)
    (data : OperationData) : OperationRegistry × String :=
  let k := variant.operationName data
  ({ operations := hmInsert r.operations k ⟨variant, data⟩ }, k)

/-- Embedding of `OperationRegistry::register_entity` (operations.rs
lines 76-92): build the shared `OperationData` and register Get, then
GetAll, for it. -/
def OperationRegistry.register_entity (r : OperationRegistry)
    (entity : DbEntity) (relationships : List DbRelationship) :
    OperationRegistry :=
  let data : OperationData := ⟨entity, relationships⟩
  ((r.register .get data).1.register .getAll data).1

/-- Embedding of `OperationRegistry::get_operation` (operations.rs lines
72-74). -/
def OperationRegistry.get_operation (r : OperationRegistry) (key : String) :
    Option OperationEntry :=
  hmGet r.operations key

example : convert_number (.posInt 5) = some (.int 5) := rfl
example : convert_number (.posInt 3000000000) = some (.int 2147483647) := rfl
example : convert_number (.negInt (-3000000000)) = some (.int (-2147483648)) := rfl
example : convert_number (.posInt 10000000000000000000) = some (.int 2147483647) := rfl
example : convert_number (.float ⟨(3 : Rat) / 2⟩) = some (.float ⟨(3 : Rat) / 2⟩) := rfl

/-! ## Helper lemmas -/

theorem as_i32_cast_eq_self (v : Int) (h1 : I32_MIN ≤ v) (h2 : v ≤ I32_MAX) :
    as_i32_cast v = v := by
  unfold as_i32_cast
  unfold I32_MIN at h1
  unfold I32_MAX at h2
  split <;> omega

theorem convert_number_isSome (n : JsonNumber) :
    (convert_number n).isSome = true := by
  cases n with
  | posInt v =>
    by_cases h : (v : Int) ≤ I64_MAX
    · simp [convert_number, JsonNumber.is_i64, JsonNumber.as_i64, h]
    · simp [convert_number, JsonNumber.is_i64, JsonNumber.is_u64,
        JsonNumber.as_u64, h]
  | negInt v => simp [convert_number, JsonNumber.is_i64, JsonNumber.as_i64]
  | float f =>
    simp [convert_number, JsonNumber.is_i64, JsonNumber.is_u64,
      JsonNumber.as_f64]

mutual

theorem convert_isSome : (j : Json) → (convert j).isSome = true
  | .null => by simp [convert]
  | .bool _ => by simp [convert]
  | .num n => by
    have h := convert_number_isSome n
    simp only [convert]
    exact h
  | .str _ => by simp [convert]
  | .arr a => by
    have h := convertList_isSome a
    simp only [convert]
    simpa using h
  | .obj o => by
    have h := cjtjv_isSome o
    simp only [convert]
    exact h

theorem convertList_isSome : (l : List Json) → (convertList l).isSome = true
  | [] => by simp [convertList]
  | x :: xs => by
    have h1 := convert_isSome x
    have h2 := convertList_isSome xs
    obtain ⟨v, hv⟩ := Option.isSome_iff_exists.mp h1
    obtain ⟨vs, hvs⟩ := Option.isSome_iff_exists.mp h2
    simp [convertList, hv, hvs]

theorem cjtjv_isSome : (fields : List (String × Json)) →
    (convert_json_to_juniper_value fields).isSome = true
  | fields => by
    have h := convertFields_isSome fields
    simp only [convert_json_to_juniper_value]
    simpa using h

theorem convertFields_isSome : (fields : List (String × Json)) →
    (convertFields fields).isSome = true
  | [] => by simp [convertFields]
  | (k, v) :: rest => by
    have h1 := convert_isSome v
    have h2 := convertFields_isSome rest
    obtain ⟨w, hw⟩ := Option.isSome_iff_exists.mp h1
    obtain ⟨ws, hws⟩ := Option.isSome_iff_exists.mp h2
    simp [convertFields, hw, hws]

end

theorem hmInsert_cons_self (k0 : String) (v0 v : OperationEntry)
    (rest : List (String × OperationEntry)) :
    hmInsert ((k0, v0) :: rest) k0 v = (k0, v) :: rest := by
  simp [hmInsert]

theorem hmInsert_cons_ne (k0 k : String) (v0 v : OperationEntry)
    (rest : List (String × OperationEntry)) (h : k0 ≠ k) :
    hmInsert ((k0, v0) :: rest) k v = (k0, v0) :: hmInsert rest k v := by
  simp [hmInsert, h]

theorem hmGet_hmInsert_self (m : List (String × OperationEntry)) (k : String)
    (v : OperationEntry) : hmGet (hmInsert m k v) k = some v := by
  induction m with
  | nil => simp [hmInsert, hmGet]
  | cons p rest ih =>
    obtain ⟨k0, v0⟩ := p
    by_cases h : k0 = k
    · simp [hmInsert, hmGet, h]
    · simp [hmInsert, hmGet, h, ih]

theorem hmGet_hmInsert_ne (m : List (String × OperationEntry))
    (k k' : String) (v : OperationEntry) (h : k' ≠ k) :
    hmGet (hmInsert m k v) k' = hmGet m k' := by
  induction m with
  | nil => simp [hmInsert, hmGet, Ne.symm h]
  | cons p rest ih =>
    obtain ⟨k0, v0⟩ := p
    by_cases h0 : k0 = k
    · subst h0
      rw [hmInsert_cons_self]
      simp [hmGet, Ne.symm h]
    · rw [hmInsert_cons_ne _ _ _ _ _ h0]
      by_cases h1 : k0 = k'
      · subst h1
        simp [hmGet]
      · simp [hmGet, h1, ih]

theorem mem_keys_hmInsert (m : List (String × OperationEntry))
    (k k' : String) (v : OperationEntry)
    (h : k' ∈ (hmInsert m k v).map Prod.fst) :
    k' = k ∨ k' ∈ m.map Prod.fst := by
  induction m with
  | nil => simpa [hmInsert] using h
  | cons p rest ih =>
    obtain ⟨k0, v0⟩ := p
    by_cases h0 : k0 = k
    · subst h0
      rw [hmInsert_cons_self] at h
      simp only [List.map_cons, List.mem_cons] at h
      simp only [List.map_cons, List.mem_cons]
      tauto
    · rw [hmInsert_cons_ne _ _ _ _ _ h0] at h
      simp only [List.map_cons, List.mem_cons] at h
      simp only [List.map_cons, List.mem_cons]
      rcases h with h | h
      · tauto
      · rcases ih h with h1 | h1 <;> tauto

theorem keys_hmInsert_nodup (m : List (String × OperationEntry)) (k : String)
    (v : OperationEntry) (h : (m.map Prod.fst).Nodup) :
    ((hmInsert m k v).map Prod.fst).Nodup := by
  induction m with
  | nil => simp [hmInsert]
  | cons p rest ih =>
    obtain ⟨k0, v0⟩ := p
    simp only [List.map_cons, List.nodup_cons] at h
    by_cases h0 : k0 = k
    · subst h0
      rw [hmInsert_cons_self]
      simp only [List.map_cons, List.nodup_cons]
      exact h
    · rw [hmInsert_cons_ne _ _ _ _ _ h0]
      simp only [List.map_cons, List.nodup_cons]
      refine ⟨?_, ih h.2⟩
      intro hmem
      rcases mem_keys_hmInsert rest k k0 v hmem with h1 | h1
      · exact h0 h1
      · exact h.1 h1

theorem mem_keys_hmInsert_self (m : List (String × OperationEntry))
    (k : String) (v : OperationEntry) : k ∈ (hmInsert m k v).map Prod.fst := by
  induction m with
  | nil => simp [hmInsert]
  | cons p rest ih =>
    obtain ⟨k0, v0⟩ := p
    by_cases h : k0 = k
    · simp [hmInsert, h]
    · simp only [hmInsert, if_neg h, List.map_cons, List.mem_cons]
      exact Or.inr ih

theorem i64_branch_eq_clamp (v : Int) :
    (if v > I32_MAX then I32_MAX else if v < I32_MIN then I32_MIN
      else as_i32_cast v) = clampI32 v := by
  unfold clampI32
  by_cases h1 : v > I32_MAX
  · simp [h1]
  · by_cases h2 : v < I32_MIN
    · simp [h1, h2]
    · simp only [if_neg h1, if_neg h2]
      exact as_i32_cast_eq_self v (by omega) (by omega)

theorem convertDocs_eq_none (l : List Json) (a : Json) (ha : a ∈ l)
    (h : Json.as_object a = none) : convertDocs l = none := by
  induction l with
  | nil => cases ha
  | cons x xs ih =>
    rcases List.mem_cons.mp ha with h1 | h1
    · subst h1
      simp [convertDocs, h]
    · cases hx : (Json.as_object x).bind convert_json_to_juniper_value
      · simp [convertDocs, hx]
      · simp [convertDocs, hx, ih h1]

theorem convertDocs_isSome (l : List Json)
    (h : ∀ a ∈ l, (Json.as_object a).isSome = true) :
    (convertDocs l).isSome = true := by
  induction l with
  | nil => simp [convertDocs]
  | cons x xs ih =>
    obtain ⟨fields, hf⟩ := Option.isSome_iff_exists.mp
      (h x (List.mem_cons_self x xs))
    obtain ⟨w, hw⟩ := Option.isSome_iff_exists.mp (cjtjv_isSome fields)
    obtain ⟨vs, hvs⟩ := Option.isSome_iff_exists.mp
      (ih fun a ha => h a (List.mem_cons_of_mem x ha))
    simp [convertDocs, hf, hw, hvs]

/-! ## Concrete fixtures used by witnesses and counterexamples -/

/-- The entity of the end-to-end example of the spec (section 8). -/
def pandey : DbEntity := ⟨"Pandey", "pandeys"⟩

def pandeyData : OperationData := ⟨pandey, []⟩

/-- The relationship of the edge-name example of the spec (section 4.2). -/
def likesRel : DbRelationship := ⟨"likes", ⟨"User", "users"⟩⟩

/-- A base query template with no filter and no limit, as supplied by the
schema layer. -/
def emptyAQLQuery : AQLQuery := ⟨none, none⟩

/-! ## Claims -/

/-- C1, counterexample: a store execution failure during GetAll is not
treated as an empty result — the call returns the NotFound error, so the
claim that GetAll never surfaces an error is false. -/
theorem getall_failure_not_empty_counterexample :
    GetAll.call pandeyData ⟨none⟩ emptyAQLQuery
        (fun _ => .error ⟨"connection refused"⟩) =
      some (.error (.notFound "Pandey")) ∧
    GetAll.call pandeyData ⟨none⟩ emptyAQLQuery
        (fun _ => .error ⟨"connection refused"⟩) ≠
      some (.ok (.list [])) := by
  constructor
  · rfl
  · intro h
    rw [show GetAll.call pandeyData ⟨none⟩ emptyAQLQuery
          (fun _ => .error ⟨"connection refused"⟩) =
        some (.error (.notFound "Pandey")) from rfl] at h
    exact Except.noConfusion (Option.some.inj h)

/-- C1, amended: a GetAll call over a store returning zero documents
succeeds with an empty list (never an error), but a store execution
failure is propagated as the NotFound error carrying the entity name, not
treated as an empty result. -/
theorem getall_empty_ok_and_failure_notfound (data : OperationData)
    (arguments : GetAllArguments) (query : AQLQuery) :
    GetAll.call data arguments query (fun _ => .ok []) =
      some (.ok (.list [])) ∧
    ∀ e, GetAll.call data arguments query (fun _ => .error e) =
      some (.error (.notFound data.entity.name)) := by
  constructor
  · rfl
  · intro e
    rfl

/-- C2, counterexample: the derived edge name for the relationship
`{name:"likes", from:{name:"User"}}` is "user_likes", not the
"users_likes" the claim states — the source pluralizes with count 1,
which yields the singular form. -/
theorem edge_name_users_likes_counterexample :
    get_relationship_edge_name likesRel = "user_likes" ∧
    get_relationship_edge_name likesRel ≠ "users_likes" := by
  constructor <;> decide

/-- C2, amended: the derived externally visible edge name equals
singular(snakeCase(relationship.from.name)) + "_" + relationship.name; in
particular the relationship `{name:"likes", from:{name:"User"}}` yields
"user_likes". -/
theorem edge_name_singular_derivation (relationship : DbRelationship) :
    get_relationship_edge_name relationship =
      singularWord (toSnake relationship.«from».name) ++ "_" ++
        relationship.name ∧
    get_relationship_edge_name likesRel = "user_likes" := by
  constructor
  · rfl
  · decide

/-- C3: an integral JSON number (an integer variant of the number type)
is narrowed to a 32-bit signed integer by clamping — values above the
32-bit signed maximum become that maximum, values below the minimum
become that minimum, in-range values pass through unchanged — and a
non-integral number passes through as a floating-point scalar with no
narrowing. -/
theorem convert_number_clamps_integral (n : JsonNumber) :
    (∀ v, n.intValue = some v →
      convert_number n = some (.int (clampI32 v))) ∧
    (∀ f, n = .float f → convert_number n = some (.float f)) := by
  constructor
  · intro v hv
    cases n with
    | posInt w =>
      simp only [JsonNumber.intValue, Option.some.injEq] at hv
      subst hv
      by_cases h : (w : Int) ≤ I64_MAX
      · simp only [convert_number, JsonNumber.is_i64, JsonNumber.as_i64,
          decide_eq_true_eq, if_pos h, Option.map_some', Option.some.injEq]
        rw [i64_branch_eq_clamp]
      · simp only [convert_number, JsonNumber.is_i64, JsonNumber.as_u64,
          JsonNumber.is_u64, decide_eq_true_eq, if_neg h, if_pos trivial,
          Option.map_some', Option.some.injEq]
        have hw : w > 2147483647 := by
          unfold I64_MAX at h
          omega
        rw [if_pos (by unfold U64_OF_I32_MAX; omega)]
        unfold clampI32
        rw [if_pos (by unfold I32_MAX; omega)]
    | negInt w =>
      simp only [JsonNumber.intValue, Option.some.injEq] at hv
      subst hv
      have he : convert_number (.negInt w) =
          some (.int (if w > I32_MAX then I32_MAX
            else if w < I32_MIN then I32_MIN else as_i32_cast w)) := rfl
      rw [he, i64_branch_eq_clamp]
    | float f =>
      simp [JsonNumber.intValue] at hv
  · intro f hf
    subst hf
    simp [convert_number, JsonNumber.is_i64, JsonNumber.is_u64,
      JsonNumber.as_f64]

/-- C3, witness: the spec examples — 3000000000 clamps to the 32-bit
signed maximum, -3000000000 clamps to the minimum, 5 passes through, and
the float 3/2 passes through unchanged. -/
theorem convert_number_clamps_integral_witness :
    convert_number (.posInt 3000000000) = some (.int (clampI32 3000000000)) ∧
    convert_number (.negInt (-3000000000)) =
      some (.int (clampI32 (-3000000000))) ∧
    convert_number (.posInt 5) = some (.int (clampI32 5)) ∧
    convert_number (.float ⟨(3 : Rat) / 2⟩) =
      some (.float ⟨(3 : Rat) / 2⟩) :=
  ⟨(convert_number_clamps_integral (.posInt 3000000000)).1 3000000000 rfl,
   (convert_number_clamps_integral (.negInt (-3000000000))).1
     (-3000000000) rfl,
   (convert_number_clamps_integral (.posInt 5)).1 5 rfl,
   (convert_number_clamps_integral (.float ⟨(3 : Rat) / 2⟩)).2
     ⟨(3 : Rat) / 2⟩ rfl⟩

theorem mem_keys_hmInsert_of_mem (m : List (String × OperationEntry))
    (k k' : String) (v : OperationEntry) (h : k' ∈ m.map Prod.fst) :
    k' ∈ (hmInsert m k v).map Prod.fst := by
  induction m with
  | nil => cases h
  | cons p rest ih =>
    obtain ⟨k0, v0⟩ := p
    simp only [List.map_cons, List.mem_cons] at h
    by_cases h0 : k0 = k
    · subst h0
      rw [hmInsert_cons_self]
      simp only [List.map_cons, List.mem_cons]
      rcases h with h | h
      · exact Or.inl h
      · exact Or.inr h
    · rw [hmInsert_cons_ne _ _ _ _ _ h0]
      simp only [List.map_cons, List.mem_cons]
      rcases h with h | h
      · exact Or.inl h
      · exact Or.inr (ih h)

/-- C4: registering an entity adds exactly two operation entries, keyed
"get" plus the Pascal-cased singular of the entity name and "getAll" plus
the Pascal-cased plural, carrying the Get and GetAll variants with the
shared data; every other key is untouched, and the keys are a function of
the entity name alone. -/
theorem register_entity_exactly_two_keys (r : OperationRegistry)
    (entity : DbEntity) (relationships : List DbRelationship)
    (hne : Get.get_operation_name ⟨entity, relationships⟩ ≠
      GetAll.get_operation_name ⟨entity, relationships⟩) :
    Get.get_operation_name ⟨entity, relationships⟩ =
      "get" ++ pluralize (toPascal entity.name) 1 false ∧
    GetAll.get_operation_name ⟨entity, relationships⟩ =
      "getAll" ++ pluralize (toPascal entity.name) 2 false ∧
    (r.register_entity entity relationships).get_operation
        (Get.get_operation_name ⟨entity, relationships⟩) =
      some ⟨.get, ⟨entity, relationships⟩⟩ ∧
    (r.register_entity entity relationships).get_operation
        (GetAll.get_operation_name ⟨entity, relationships⟩) =
      some ⟨.getAll, ⟨entity, relationships⟩⟩ ∧
    ∀ k, k ≠ Get.get_operation_name ⟨entity, relationships⟩ →
      k ≠ GetAll.get_operation_name ⟨entity, relationships⟩ →
      (r.register_entity entity relationships).get_operation k =
        r.get_operation k := by
  refine ⟨rfl, rfl, ?_, ?_, ?_⟩
  · show hmGet
      (hmInsert
        (hmInsert r.operations (Get.get_operation_name ⟨entity, relationships⟩)
          ⟨.get, ⟨entity, relationships⟩⟩)
        (GetAll.get_operation_name ⟨entity, relationships⟩)
        ⟨.getAll, ⟨entity, relationships⟩⟩)
      (Get.get_operation_name ⟨entity, relationships⟩) =
      some ⟨.get, ⟨entity, relationships⟩⟩
    rw [hmGet_hmInsert_ne _ _ _ _ hne, hmGet_hmInsert_self]
  · exact hmGet_hmInsert_self _ _ _
  · intro k h1 h2
    show hmGet
      (hmInsert
        (hmInsert r.operations (Get.get_operation_name ⟨entity, relationships⟩)
          ⟨.get, ⟨entity, relationships⟩⟩)
        (GetAll.get_operation_name ⟨entity, relationships⟩)
        ⟨.getAll, ⟨entity, relationships⟩⟩) k = r.get_operation k
    rw [hmGet_hmInsert_ne _ _ _ _ h2, hmGet_hmInsert_ne _ _ _ _ h1]
    rfl

/-- C4, witness: registering the entity "pandey" in a fresh registry
yields the key "getPandey" mapped to the Get entry, and leaves an
unrelated key absent. -/
theorem register_entity_exactly_two_keys_witness :
    (OperationRegistry.new.register_entity pandey []).get_operation
        (Get.get_operation_name ⟨pandey, []⟩) = some ⟨.get, ⟨pandey, []⟩⟩ ∧
    Get.get_operation_name ⟨pandey, []⟩ = "getPandey" ∧
    (OperationRegistry.new.register_entity pandey []).get_operation
        "otherKey" = OperationRegistry.new.get_operation "otherKey" :=
  ⟨(register_entity_exactly_two_keys OperationRegistry.new pandey []
      (by decide)).2.2.1,
   by decide,
   (register_entity_exactly_two_keys OperationRegistry.new pandey []
      (by decide)).2.2.2.2 "otherKey" (by decide) (by decide)⟩

/-- C5: a Get call whose store execution fails, or returns zero
documents, yields the single NotFound error carrying the entity name (the
two cases are indistinguishable); a non-empty result yields the Value
Converter conversion of the first document. -/
theorem get_call_semantics (data : OperationData) (arguments : GetArguments)
    (query : AQLQuery) :
    (∀ e, Get.call data arguments query (fun _ => .error e) =
      some (.error (.notFound data.entity.name))) ∧
    Get.call data arguments query (fun _ => .ok []) =
      some (.error (.notFound data.entity.name)) ∧
    ∀ first rest fields, Json.as_object first = some fields →
      Get.call data arguments query (fun _ => .ok (first :: rest)) =
        (convert_json_to_juniper_value fields).map Except.ok := by
  refine ⟨fun e => rfl, rfl, ?_⟩
  intro first rest fields h
  simp [Get.call, Get.handleEntries, h]

/-- C5, witness: against one document with a firstName field the call
returns the converted document; the hypotheses are discharged at the
concrete document. -/
theorem get_call_semantics_witness :
    Get.call pandeyData ⟨"123"⟩ emptyAQLQuery
        (fun _ => .ok [Json.obj [("_key", .str "123"), ("firstName", .str "A")]]) =
      (convert_json_to_juniper_value
        [("_key", .str "123"), ("firstName", .str "A")]).map Except.ok ∧
    Get.call pandeyData ⟨"123"⟩ emptyAQLQuery (fun _ => .ok []) =
      some (.error (.notFound "Pandey")) :=
  ⟨(get_call_semantics pandeyData ⟨"123"⟩ emptyAQLQuery).2.2
      (Json.obj [("_key", .str "123"), ("firstName", .str "A")]) []
      [("_key", .str "123"), ("firstName", .str "A")] rfl,
   (get_call_semantics pandeyData ⟨"123"⟩ emptyAQLQuery).2.1⟩

/-- C6: every Get call prepares the query with the filter set to an
equality of the "_key" field against the bind reference for the "id"
argument (never a literal) and the limit set to 1, and the request handed
to the store carries exactly that prepared query. -/
theorem get_query_filter_bind_and_limit (query : AQLQuery) :
    (Get.prepare query).filter =
      some { left_node := .AQLQueryParameter "_key",
             operation := .EQUAL,
             right_node := .AQLQueryBind "id" } ∧
    (Get.prepare query).limit = some 1 ∧
    ∀ data arguments,
      (Get.buildRequest data arguments (Get.prepare query)).query =
        Get.prepare query :=
  ⟨rfl, rfl, fun _ _ => rfl⟩

/-- C7: a GetAll call sets the query limit to the supplied limit argument
when present and leaves it unset when absent, and the built request binds
only the collection name. -/
theorem getall_limit_and_binds (query : AQLQuery) (data : OperationData) :
    (∀ n : Int, (GetAll.prepare query ⟨some n⟩).limit = some n) ∧
    (GetAll.prepare query ⟨none⟩).limit = none ∧
    ∀ arguments,
      (GetAll.buildRequest data (GetAll.prepare query arguments)).bind_vars =
        [("@collection", data.entity.collection_name)] :=
  ⟨fun _ => rfl, rfl, fun _ => rfl⟩

/-- C8: a returned document that is not a JSON object makes the
as_object unwrap panic (modelled by `none`) in both Get (when it is the
first document) and GetAll (anywhere in the result), and when every
returned document is an object both operations complete. -/
theorem nonobject_document_panics (data : OperationData)
    (gArguments : GetArguments) (aArguments : GetAllArguments)
    (query : AQLQuery) :
    (∀ first rest, Json.as_object first = none →
      Get.call data gArguments query (fun _ => .ok (first :: rest)) = none) ∧
    (∀ docs d, d ∈ docs → Json.as_object d = none →
      GetAll.call data aArguments query (fun _ => .ok docs) = none) ∧
    (∀ docs, (∀ d ∈ docs, (Json.as_object d).isSome = true) →
      (Get.call data gArguments query (fun _ => .ok docs)).isSome = true) ∧
    (∀ docs, (∀ d ∈ docs, (Json.as_object d).isSome = true) →
      (GetAll.call data aArguments query (fun _ => .ok docs)).isSome = true) := by
  refine ⟨?_, ?_, ?_, ?_⟩
  · intro first rest h
    simp [Get.call, Get.handleEntries, h]
  · intro docs d hmem h
    have hd := convertDocs_eq_none docs d hmem h
    simp [GetAll.call, GetAll.handleEntries, hd]
  · intro docs h
    cases docs with
    | nil => simp [Get.call, Get.handleEntries]
    | cons first rest =>
      obtain ⟨fields, hf⟩ := Option.isSome_iff_exists.mp
        (h first (List.mem_cons_self _ _))
      obtain ⟨w, hw⟩ := Option.isSome_iff_exists.mp (cjtjv_isSome fields)
      simp [Get.call, Get.handleEntries, hf, hw]
  · intro docs h
    obtain ⟨vs, hvs⟩ := Option.isSome_iff_exists.mp (convertDocs_isSome docs h)
    simp [GetAll.call, GetAll.handleEntries, hvs]

/-- C8, witness: a store result holding the non-object document "oops"
makes both operations panic. -/
theorem nonobject_document_panics_witness :
    GetAll.call pandeyData ⟨none⟩ emptyAQLQuery
        (fun _ => .ok [Json.str "oops"]) = none ∧
    Get.call pandeyData ⟨"123"⟩ emptyAQLQuery
        (fun _ => .ok [Json.str "oops"]) = none :=
  ⟨(nonobject_document_panics pandeyData ⟨"123"⟩ ⟨none⟩ emptyAQLQuery).2.1
      [Json.str "oops"] (Json.str "oops") (List.Mem.head _) rfl,
   (nonobject_document_panics pandeyData ⟨"123"⟩ ⟨none⟩ emptyAQLQuery).1
      (Json.str "oops") [] rfl⟩

/-- C9: the JSON-to-value conversion is total — the numeric conversion,
the recursive converter and the object converter always return a value
for every input, at any nesting depth. -/
theorem value_converter_total :
    (∀ n, (convert_number n).isSome = true) ∧
    (∀ j, (convert j).isSome = true) ∧
    (∀ fields, (convert_json_to_juniper_value fields).isSome = true) :=
  ⟨convert_number_isSome, convert_isSome, cjtjv_isSome⟩

/-- C10: re-registering an entity silently overwrites the prior Get and
GetAll entries for the two derived keys (the lookups return the entries
of the second registration), no error is raised (registration is total),
and the registry holds exactly one entry per derived key. -/
theorem reregister_overwrites_silently (r : OperationRegistry)
    (entity : DbEntity) (rel1 rel2 : List DbRelationship)
    (hnodup : (r.operations.map Prod.fst).Nodup)
    (hne : Get.get_operation_name ⟨entity, rel2⟩ ≠
      GetAll.get_operation_name ⟨entity, rel2⟩) :
    ((r.register_entity entity rel1).register_entity entity rel2).get_operation
        (Get.get_operation_name ⟨entity, rel2⟩) =
      some ⟨.get, ⟨entity, rel2⟩⟩ ∧
    ((r.register_entity entity rel1).register_entity entity rel2).get_operation
        (GetAll.get_operation_name ⟨entity, rel2⟩) =
      some ⟨.getAll, ⟨entity, rel2⟩⟩ ∧
    ((((r.register_entity entity rel1).register_entity entity rel2).operations.map
        Prod.fst).count (Get.get_operation_name ⟨entity, rel2⟩)) = 1 ∧
    ((((r.register_entity entity rel1).register_entity entity rel2).operations.map
        Prod.fst).count (GetAll.get_operation_name ⟨entity, rel2⟩)) = 1 := by
  have hops :
      ((r.register_entity entity rel1).register_entity entity rel2).operations =
      hmInsert
        (hmInsert
          (hmInsert
            (hmInsert r.operations (Get.get_operation_name ⟨entity, rel1⟩)
              ⟨.get, ⟨entity, rel1⟩⟩)
            (GetAll.get_operation_name ⟨entity, rel1⟩)
            ⟨.getAll, ⟨entity, rel1⟩⟩)
          (Get.get_operation_name ⟨entity, rel2⟩) ⟨.get, ⟨entity, rel2⟩⟩)
        (GetAll.get_operation_name ⟨entity, rel2⟩)
        ⟨.getAll, ⟨entity, rel2⟩⟩ := rfl
  have hn4 : ((((r.register_entity entity rel1).register_entity entity
      rel2).operations).map Prod.fst).Nodup := by
    rw [hops]
    exact keys_hmInsert_nodup _ _ _ (keys_hmInsert_nodup _ _ _
      (keys_hmInsert_nodup _ _ _ (keys_hmInsert_nodup _ _ _ hnodup)))
  have hmemG : Get.get_operation_name ⟨entity, rel2⟩ ∈
      (((r.register_entity entity rel1).register_entity entity
        rel2).operations).map Prod.fst := by
    rw [hops]
    exact mem_keys_hmInsert_of_mem _ _ _ _ (mem_keys_hmInsert_self _ _ _)
  have hmemA : GetAll.get_operation_name ⟨entity, rel2⟩ ∈
      (((r.register_entity entity rel1).register_entity entity
        rel2).operations).map Prod.fst := by
    rw [hops]
    exact mem_keys_hmInsert_self _ _ _
  refine ⟨?_, ?_, ?_, ?_⟩
  · show hmGet (((r.register_entity entity rel1).register_entity entity
        rel2).operations) (Get.get_operation_name ⟨entity, rel2⟩) = _
    rw [hops, hmGet_hmInsert_ne _ _ _ _ hne, hmGet_hmInsert_self]
  · show hmGet (((r.register_entity entity rel1).register_entity entity
        rel2).operations) (GetAll.get_operation_name ⟨entity, rel2⟩) = _
    rw [hops, hmGet_hmInsert_self]
  · exact Nat.le_antisymm (List.nodup_iff_count_le_one.mp hn4 _)
      (List.count_pos_iff.mpr hmemG)
  · exact Nat.le_antisymm (List.nodup_iff_count_le_one.mp hn4 _)
      (List.count_pos_iff.mpr hmemA)

/-- C10, witness: registering the entity "pandey" twice in a fresh
registry, the second time with no relationships, leaves the Get key
mapped to the entry of the second registration and exactly one entry
under that key. -/
theorem reregister_overwrites_silently_witness :
    ((OperationRegistry.new.register_entity pandey
        [likesRel]).register_entity pandey []).get_operation
      (Get.get_operation_name ⟨pandey, []⟩) = some ⟨.get, ⟨pandey, []⟩⟩ ∧
    ((((OperationRegistry.new.register_entity pandey
        [likesRel]).register_entity pandey []).operations.map
      Prod.fst).count (Get.get_operation_name ⟨pandey, []⟩)) = 1 :=
  ⟨(reregister_overwrites_silently OperationRegistry.new pandey [likesRel] []
      (by decide) (by decide)).1,
   (reregister_overwrites_silently OperationRegistry.new pandey [likesRel] []
      (by decide) (by decide)).2.2.1⟩
